import Mathlib

/-!
Verification of the `ConfidentialBonusPool` contract (Solidity, fhEVM).

Shallow embedding: contract storage becomes a Lean structure; `euint64`
handles are modelled by their plaintext values as `Nat` reduced mod `2^64`
(fhEVM `FHE.add`/`FHE.sub`/`FHE.mul` wrap modulo `2^64`, `FHE.div` by a
plaintext scalar is floor division); each external function becomes a
function `PoolState → … → Except String …` where `Except.error` is a
Solidity revert (all state discarded) carrying the `require` message.

The decryption oracle is modelled by the `requestedValue` log: opening a
decryption request with `FHE.requestDecryption` snapshots the plaintext of
the requested ciphertext under a fresh id; `FHE.checkSignatures` on a
callback succeeds exactly when the presented cleartext is the logged
plaintext for that id (the oracle only ever signs genuine decryptions of
requests it received; the message "Invalid signatures" stands for that
revert).  External ETH transfers are recorded as `Effect`s in the order the
statements occur in the source.
-/

/-- Ethereum addresses, `0` playing the role of `address(0)`. -/
abbrev Address := Nat

/-- The constant `2 ^ 64`, modulus of `euint64` arithmetic. -/
def U64 : Nat := 18446744073709551616

/-- The source's `enum Role` with members None, Intern, Junior, Mid, Senior, Lead. -/
inductive Role where
  | None
  | Intern
  | Junior
  | Mid
  | Senior
  | Lead
deriving DecidableEq

/-- Solidity enum value of a `Role` (declaration order). -/
def roleIdx : Role → Nat
  | .None => 0
  | .Intern => 1
  | .Junior => 2
  | .Mid => 3
  | .Senior => 4
  | .Lead => 5

/-- The `rolePercentage` mapping as filled by the constructor
(basis points; `Role.None` keeps the mapping default `0`). -/
def rolePercentageInit : Role → Nat
  | .None => 0
  | .Intern => 200
  | .Junior => 500
  | .Mid => 800
  | .Senior => 1200
  | .Lead => 2000

/-- The source's `struct Employee` (the `performance` handle carried by its plaintext). -/
structure Employee where
  performance : Nat
  role : Role
  hasWithdrawn : Bool
  hasCommitted : Bool
  decryptedBonus : Nat
deriving DecidableEq

/-- Storage default of `Employee` (all-zero struct). -/
def defaultEmployee : Employee :=
  { performance := 0, role := Role.None, hasWithdrawn := false,
    hasCommitted := false, decryptedBonus := 0 }

/-- The contract storage plus the oracle's log of issued decryptions.
`encPoolInit` models `FHE.isInitialized(encryptedPool)` (a property of the
handle, not of its value); `reentrancyStatus` is the `_status` guard word;
`nextRequestId` generates the fresh, protocol-unique ids returned by
`FHE.requestDecryption`; `requestedValue` maps each issued request id to
the plaintext of the ciphertext that was submitted for decryption. -/
structure PoolState where
  manager : Address
  actualPool : Nat
  encryptedPool : Nat
  encPoolInit : Bool
  rolePercentage : Role → Nat
  employees : Address → Employee
  employeeList : List Address
  requestToEmployee : Nat → Address
  decryptionRequestIdPool : Nat
  decryptionRequestIdBonus : Nat
  reentrancyStatus : Nat
  nextRequestId : Nat
  requestedValue : Nat → Option Nat

/-- Pointwise map update (Solidity mapping assignment). -/
def upd {α β : Type} [DecidableEq α] (f : α → β) (x : α) (v : β) : α → β :=
  fun y => if y = x then v else f y

/-- The constructor: records the deployer as manager, sets
`encryptedPool = FHE.asEuint64(0)` (an initialized handle of value 0) and
fills the role percentages. -/
def initState (sender : Address) : PoolState where
  manager := sender
  actualPool := 0
  encryptedPool := 0
  encPoolInit := true
  rolePercentage := rolePercentageInit
  employees := fun _ => defaultEmployee
  employeeList := []
  requestToEmployee := fun _ => 0
  decryptionRequestIdPool := 0
  decryptionRequestIdBonus := 0
  reentrancyStatus := 0
  nextRequestId := 1
  requestedValue := fun _ => none

/-- The encrypted bonus computed in `withdrawBonus` (lines 149-151):
`weightedPerf = FHE.div(FHE.mul(performance, rolePct), 100)` and
`bonus = FHE.div(FHE.mul(weightedPerf, encryptedPool), 10000)`, the two
`FHE.mul` wrapping mod `2^64` and the two `FHE.div` being floor division. -/
def fheBonus (score bp pool : Nat) : Nat :=
  ((score * bp) % U64 / 100) * pool % U64 / 10000

/-- Externally visible side effects of a callback, listed in statement
order of the source. -/
inductive Effect where
  | subEncrypted (amount : Nat)
  | subClear (amount : Nat)
  | ethTransfer (recipient : Address) (amount : Nat)
  | recordBonus (recipient : Address) (amount : Nat)
  | closeRequest (id : Nat)
deriving DecidableEq

/-- Function `fundPool(encryptedAmount, proof)` with `msg.sender`/`msg.value`:
`onlyManager`; requires `msg.value > 0`; `actualPool += msg.value`;
`encryptedPool = FHE.add(encryptedPool, FHE.fromExternal(...))`; requests
decryption of the (external) funding ciphertext and stores the id in
`decryptionRequestIdPool`.  Returns the new state and the request id. -/
def fundPool (s : PoolState) (sender : Address) (msgValue encAmount : Nat) :
    Except String (PoolState × Nat) :=
  if sender ≠ s.manager then .error "Only manager"
  else if msgValue = 0 then .error "Must send ETH"
  else
    .ok ({ s with
      actualPool := s.actualPool + msgValue,
      encryptedPool := (s.encryptedPool + encAmount % U64) % U64,
      decryptionRequestIdPool := s.nextRequestId,
      nextRequestId := s.nextRequestId + 1,
      requestedValue := upd s.requestedValue s.nextRequestId (some (encAmount % U64)) },
      s.nextRequestId)

/-- Function `callbackVerifyPool(requestId, cleartexts, proof)`:
`FHE.checkSignatures`; requires `requestId == decryptionRequestIdPool`;
requires `uint256(decrypted) == actualPool` ("Encrypted pool mismatch");
clears the pool request slot. -/
def callbackVerifyPool (s : PoolState) (requestId cleartext : Nat) :
    Except String PoolState :=
  if s.requestedValue requestId ≠ some cleartext then .error "Invalid signatures"
  else if requestId ≠ s.decryptionRequestIdPool then .error "Invalid request ID"
  else if cleartext ≠ s.actualPool then .error "Encrypted pool mismatch"
  else .ok { s with decryptionRequestIdPool := 0 }

/-- Function `commitPerformance(encryptedScore, proof, role)` with `msg.sender`:
requires `role != Role.None`, `!hasWithdrawn`,
`FHE.isInitialized(encryptedPool)` ("Pool not funded"), `!hasCommitted`;
records the employee struct and appends the sender to `employeeList`. -/
def commitPerformance (s : PoolState) (sender : Address) (encScore : Nat) (role : Role) :
    Except String PoolState :=
  if role = Role.None then .error "Invalid role"
  else if (s.employees sender).hasWithdrawn then .error "Already withdrawn"
  else if ¬ s.encPoolInit then .error "Pool not funded"
  else if (s.employees sender).hasCommitted then .error "Already committed performance"
  else
    .ok { s with
      employees := upd s.employees sender
        { performance := encScore % U64, role := role, hasWithdrawn := false,
          hasCommitted := true, decryptedBonus := 0 },
      employeeList := s.employeeList ++ [sender] }

/-- First half of `withdrawBonus()` (lines 142-151): the two `require`s,
the early `emp.hasWithdrawn = true`, and the encrypted bonus computation.
Returns the state as it stands when `FHE.requestDecryption` is invoked,
together with the plaintext of the bonus ciphertext. -/
def withdrawBonusFlag (s : PoolState) (sender : Address) :
    Except String (PoolState × Nat) :=
  if ¬ (s.employees sender).hasCommitted then .error "No performance committed"
  else if (s.employees sender).hasWithdrawn then .error "Already withdrawn"
  else
    .ok ({ s with
      employees := upd s.employees sender
        { s.employees sender with hasWithdrawn := true } },
      fheBonus (s.employees sender).performance
        (s.rolePercentage (s.employees sender).role) s.encryptedPool)

/-- Function `withdrawBonus()` with `msg.sender`: the flagged state of
`withdrawBonusFlag` followed by opening the decryption request (lines
153-159): `requestToEmployee[requestId] = msg.sender` and
`decryptionRequestIdBonus = requestId`.  Returns the request id. -/
def withdrawBonus (s : PoolState) (sender : Address) :
    Except String (PoolState × Nat) :=
  match withdrawBonusFlag s sender with
  | .error e => .error e
  | .ok (s1, bonus) =>
      .ok ({ s1 with
        requestToEmployee := upd s1.requestToEmployee s1.nextRequestId sender,
        decryptionRequestIdBonus := s1.nextRequestId,
        nextRequestId := s1.nextRequestId + 1,
        requestedValue := upd s1.requestedValue s1.nextRequestId (some bonus) },
        s1.nextRequestId)

/-- Function `callbackPayBonus` up to and including `actualPool -= bonus` (the
`nonReentrant` entry, `FHE.checkSignatures`, the employee lookup, the two
bonus `require`s and the two balance updates, lines 162-180).  The result
is the state in force at the moment of the external
`payable(employee).call{value: bonus}` (reentrancy word set to 1, request
still registered), plus the employee and the bonus. -/
def callbackPayBonusEnter (s : PoolState) (requestId cleartext : Nat) :
    Except String (PoolState × Address × Nat) :=
  if s.reentrancyStatus ≠ 0 then .error "Reentrancy"
  else if s.requestedValue requestId ≠ some cleartext then .error "Invalid signatures"
  else if s.requestToEmployee requestId = 0 then .error "Invalid employee"
  else if cleartext = 0 then .error "Bonus zero"
  else if ¬ cleartext ≤ s.actualPool then .error "Insufficient pool funds"
  else
    .ok ({ s with
      reentrancyStatus := 1,
      encryptedPool := (s.encryptedPool + (U64 - cleartext % U64)) % U64,
      actualPool := s.actualPool - cleartext },
      s.requestToEmployee requestId, cleartext)

/-- Function `callbackPayBonus(requestId, cleartexts, proof)`: the entry half, then
the ETH transfer, `employees[employee].decryptedBonus = bonus`,
`delete requestToEmployee[requestId]`, and the `nonReentrant` exit.  The
effect list records the side effects in source statement order. -/
def callbackPayBonus (s : PoolState) (requestId cleartext : Nat) :
    Except String (PoolState × List Effect) :=
  match callbackPayBonusEnter s requestId cleartext with
  | .error e => .error e
  | .ok (m, employee, bonus) =>
      .ok ({ m with
        employees := upd m.employees employee
          { m.employees employee with decryptedBonus := bonus },
        requestToEmployee := upd m.requestToEmployee requestId 0,
        reentrancyStatus := 0 },
        [Effect.subEncrypted bonus, Effect.subClear bonus,
         Effect.ethTransfer employee bonus,
         Effect.recordBonus employee bonus,
         Effect.closeRequest requestId])

/-- Function `withdrawRemaining()` with `msg.sender`: `onlyManager`; requires
`actualPool > 0`; requests decryption of the current `encryptedPool`
handle and stores the id in `decryptionRequestIdPool` (the same slot
`fundPool` uses). -/
def withdrawRemaining (s : PoolState) (sender : Address) :
    Except String (PoolState × Nat) :=
  if sender ≠ s.manager then .error "Only manager"
  else if s.actualPool = 0 then .error "No remaining funds"
  else
    .ok ({ s with
      decryptionRequestIdPool := s.nextRequestId,
      nextRequestId := s.nextRequestId + 1,
      requestedValue := upd s.requestedValue s.nextRequestId (some s.encryptedPool) },
      s.nextRequestId)

/-- Function `callbackWithdrawRemaining(requestId, cleartexts, proof)`:
`nonReentrant`; `FHE.checkSignatures`; requires
`requestId == decryptionRequestIdPool`, `remaining <= actualPool`
("Pool mismatch"), `remaining > 0` ("Nothing to withdraw"); zeroes both
balances and the slot, then transfers `amount = actualPool` (snapshotted
before zeroing) to the manager. -/
def callbackWithdrawRemaining (s : PoolState) (requestId cleartext : Nat) :
    Except String (PoolState × List Effect) :=
  if s.reentrancyStatus ≠ 0 then .error "Reentrancy"
  else if s.requestedValue requestId ≠ some cleartext then .error "Invalid signatures"
  else if requestId ≠ s.decryptionRequestIdPool then .error "Invalid request ID"
  else if ¬ cleartext ≤ s.actualPool then .error "Pool mismatch"
  else if cleartext = 0 then .error "Nothing to withdraw"
  else
    .ok ({ s with
      actualPool := 0,
      encryptedPool := 0,
      decryptionRequestIdPool := 0,
      reentrancyStatus := 0 },
      [Effect.ethTransfer s.manager s.actualPool])

/-- Whether a call was accepted (did not revert). -/
def isOkE {α : Type} : Except String α → Bool
  | .ok _ => true
  | .error _ => false

/-- State of an accepted `Except String PoolState` call (dummy on revert). -/
def okPS : Except String PoolState → PoolState
  | .ok s => s
  | .error _ => initState 0

/-- State of an accepted call returning a request id (dummy on revert). -/
def okPS1 : Except String (PoolState × Nat) → PoolState
  | .ok (s, _) => s
  | .error _ => initState 0

/-- Request id of an accepted call (dummy on revert). -/
def okRid : Except String (PoolState × Nat) → Nat
  | .ok (_, r) => r
  | .error _ => 0

/-- State of an accepted callback returning effects (dummy on revert). -/
def okPS2 : Except String (PoolState × List Effect) → PoolState
  | .ok (s, _) => s
  | .error _ => initState 0

/-- Effect list of an accepted callback (empty on revert). -/
def okTrace : Except String (PoolState × List Effect) → List Effect
  | .ok (_, t) => t
  | .error _ => []

/-- Returns `true` iff a `closeRequest` effect occurs before any `ethTransfer`
(trivially `true` when no transfer occurs). -/
def closedBeforeTransfer : List Effect → Bool
  | [] => true
  | Effect.closeRequest _ :: _ => true
  | Effect.ethTransfer _ _ :: _ => false
  | _ :: rest => closedBeforeTransfer rest

/-- States reachable by any sequence of accepted contract calls from a
fresh deployment. -/
inductive Reach : PoolState → Prop where
  | init (m : Address) : Reach (initState m)
  | fund {s s' : PoolState} (sender v enc rid : Nat) :
      Reach s → fundPool s sender v enc = .ok (s', rid) → Reach s'
  | verify {s s' : PoolState} (id d : Nat) :
      Reach s → callbackVerifyPool s id d = .ok s' → Reach s'
  | commit {s s' : PoolState} (sender sc : Nat) (r : Role) :
      Reach s → commitPerformance s sender sc r = .ok s' → Reach s'
  | withdraw {s s' : PoolState} (sender rid : Nat) :
      Reach s → withdrawBonus s sender = .ok (s', rid) → Reach s'
  | pay {s s' : PoolState} (id d : Nat) (tr : List Effect) :
      Reach s → callbackPayBonus s id d = .ok (s', tr) → Reach s'
  | remain {s s' : PoolState} (sender rid : Nat) :
      Reach s → withdrawRemaining s sender = .ok (s', rid) → Reach s'
  | settleRemain {s s' : PoolState} (id d : Nat) (tr : List Effect) :
      Reach s → callbackWithdrawRemaining s id d = .ok (s', tr) → Reach s'

/-- Reachability restricted to valid (honest) funding sequences: every
funding's external ciphertext holds exactly the declared `msg.value`. -/
inductive HonestReach : PoolState → Prop where
  | init (m : Address) : HonestReach (initState m)
  | fund {s s' : PoolState} (sender v rid : Nat) (hv : v < U64) :
      HonestReach s → fundPool s sender v v = .ok (s', rid) → HonestReach s'
  | verify {s s' : PoolState} (id d : Nat) :
      HonestReach s → callbackVerifyPool s id d = .ok s' → HonestReach s'
  | commit {s s' : PoolState} (sender sc : Nat) (r : Role) :
      HonestReach s → commitPerformance s sender sc r = .ok s' → HonestReach s'
  | withdraw {s s' : PoolState} (sender rid : Nat) :
      HonestReach s → withdrawBonus s sender = .ok (s', rid) → HonestReach s'
  | pay {s s' : PoolState} (id d : Nat) (tr : List Effect) :
      HonestReach s → callbackPayBonus s id d = .ok (s', tr) → HonestReach s'
  | remain {s s' : PoolState} (sender rid : Nat) :
      HonestReach s → withdrawRemaining s sender = .ok (s', rid) → HonestReach s'
  | settleRemain {s s' : PoolState} (id d : Nat) (tr : List Effect) :
      HonestReach s → callbackWithdrawRemaining s id d = .ok (s', tr) → HonestReach s'

/-- Scenario state: the pool freshly deployed by manager `1` and funded
with declared amount `1000000` and a matching ciphertext (request id 1). -/
def sFund : PoolState := okPS1 (fundPool (initState 1) 1 1000000 1000000)

/-- Scenario state: the funding verification callback settled. -/
def sVerified : PoolState := okPS (callbackVerifyPool sFund 1 1000000)

/-- Scenario state: participant `2` committed score 80 at tier Mid. -/
def sCommitted : PoolState := okPS (commitPerformance sVerified 2 80 Role.Mid)

/-- Scenario state: participant `2` called `withdrawBonus` (request id 2,
whose ciphertext holds `fheBonus 80 800 1000000 = 64000`). -/
def sWithdrawn : PoolState := okPS1 (withdrawBonus sCommitted 2)

/-- Scenario state: the bonus settlement callback delivered the genuine
decryption `64000` of request 2. -/
def sPaid : PoolState := okPS2 (callbackPayBonus sWithdrawn 2 64000)

/-- Any address registered for a pending bonus settlement has already been
marked as withdrawn. -/
def InvReq (s : PoolState) : Prop :=
  ∀ id, s.requestToEmployee id ≠ 0 →
    (s.employees (s.requestToEmployee id)).hasWithdrawn = true
/-- Any participant with a nonzero settled bonus has been marked as
withdrawn. -/
def InvSettled (s : PoolState) : Prop :=
  ∀ a, (s.employees a).decryptedBonus ≠ 0 →
    (s.employees a).hasWithdrawn = true
/-- Balance consistency for valid funding sequences: the encrypted pool
holds the cleartext pool reduced mod `2^64`, and every plaintext the
oracle ever logged fits in 64 bits. -/
def HonestInv (s : PoolState) : Prop :=
  s.encryptedPool = s.actualPool % U64 ∧
  ∀ id v, s.requestedValue id = some v → v < U64

/-- State of an accepted `callbackPayBonusEnter` (dummy on revert). -/
def okEnterPS : Except String (PoolState × Address × Nat) → PoolState
  | .ok (s, _, _) => s
  | .error _ => initState 0

/-- First-funding state for the funding-verification counterexample:
manager `1` funds 100 wei with a matching ciphertext (request id 1). -/
def c1s1 : PoolState := okPS1 (fundPool (initState 1) 1 100 100)

/-- The first funding's verification settled successfully. -/
def c1s2 : PoolState := okPS (callbackVerifyPool c1s1 1 100)

/-- A second honest funding of 50 wei (request id 2, declared amount 50,
ciphertext plaintext 50). -/
def c1s3 : PoolState := okPS1 (fundPool c1s2 1 50 50)

/-- Pool funded with 1 wei (matching ciphertext) for the overflow
counterexample. -/
def cxFunded : PoolState := okPS1 (fundPool (initState 1) 1 1 1)

/-- Participant `2` committed the (unchecked) 64-bit score `2^60` at tier
Lead on the 1-wei pool. -/
def cxCommitted : PoolState := okPS (commitPerformance cxFunded 2 (2 ^ 60) Role.Lead)

/-- Pool funded with 100 wei by manager `1` (request id 1 outstanding in
the shared pool slot). -/
def sSmallFund : PoolState := okPS1 (fundPool (initState 1) 1 100 100)

/-- Remainder withdrawal requested on top of `sSmallFund` (request id 2
overwrites the shared pool slot). -/
def sRemainReq : PoolState := okPS1 (withdrawRemaining sSmallFund 1)

/-- Inversion of an accepted `fundPool` call. -/
theorem fundPool_ok {s : PoolState} {sender : Address} {v enc : Nat}
    {s' : PoolState} {rid : Nat} (h : fundPool s sender v enc = .ok (s', rid)) :
    sender = s.manager ∧ v ≠ 0 ∧ rid = s.nextRequestId ∧
    s'.manager = s.manager ∧
    s'.actualPool = s.actualPool + v ∧
    s'.encryptedPool = (s.encryptedPool + enc % U64) % U64 ∧
    s'.encPoolInit = s.encPoolInit ∧
    s'.rolePercentage = s.rolePercentage ∧
    s'.employees = s.employees ∧
    s'.employeeList = s.employeeList ∧
    s'.requestToEmployee = s.requestToEmployee ∧
    s'.decryptionRequestIdPool = s.nextRequestId ∧
    s'.decryptionRequestIdBonus = s.decryptionRequestIdBonus ∧
    s'.reentrancyStatus = s.reentrancyStatus ∧
    s'.nextRequestId = s.nextRequestId + 1 ∧
    s'.requestedValue = upd s.requestedValue s.nextRequestId (some (enc % U64)) := by
  unfold fundPool at h
  split at h
  · cases h
  next hm =>
    split at h
    · cases h
    next hv =>
      simp only [Except.ok.injEq, Prod.mk.injEq] at h
      obtain ⟨hs, hr⟩ := h
      subst hs; subst hr
      simp only [not_not] at hm
      exact ⟨hm, hv, rfl, rfl, rfl, rfl, rfl, rfl, rfl, rfl, rfl, rfl, rfl, rfl, rfl, rfl⟩

/-- Inversion of an accepted `callbackVerifyPool` call. -/
theorem callbackVerifyPool_ok {s : PoolState} {id d : Nat} {s' : PoolState}
    (h : callbackVerifyPool s id d = .ok s') :
    s.requestedValue id = some d ∧ id = s.decryptionRequestIdPool ∧
    d = s.actualPool ∧
    s'.manager = s.manager ∧
    s'.actualPool = s.actualPool ∧
    s'.encryptedPool = s.encryptedPool ∧
    s'.encPoolInit = s.encPoolInit ∧
    s'.rolePercentage = s.rolePercentage ∧
    s'.employees = s.employees ∧
    s'.employeeList = s.employeeList ∧
    s'.requestToEmployee = s.requestToEmployee ∧
    s'.decryptionRequestIdPool = 0 ∧
    s'.decryptionRequestIdBonus = s.decryptionRequestIdBonus ∧
    s'.reentrancyStatus = s.reentrancyStatus ∧
    s'.nextRequestId = s.nextRequestId ∧
    s'.requestedValue = s.requestedValue := by
  unfold callbackVerifyPool at h
  split at h
  · cases h
  next hsig =>
    split at h
    · cases h
    next hid =>
      split at h
      · cases h
      next hval =>
        simp only [Except.ok.injEq] at h
        subst h
        simp only [not_not] at hsig hid hval
        exact ⟨hsig, hid, hval, rfl, rfl, rfl, rfl, rfl, rfl, rfl, rfl, rfl, rfl,
          rfl, rfl, rfl⟩

/-- Inversion of an accepted `commitPerformance` call. -/
theorem commitPerformance_ok {s : PoolState} {sender : Address} {sc : Nat}
    {r : Role} {s' : PoolState} (h : commitPerformance s sender sc r = .ok s') :
    r ≠ Role.None ∧
    (s.employees sender).hasWithdrawn = false ∧
    s.encPoolInit = true ∧
    (s.employees sender).hasCommitted = false ∧
    s'.manager = s.manager ∧
    s'.actualPool = s.actualPool ∧
    s'.encryptedPool = s.encryptedPool ∧
    s'.encPoolInit = s.encPoolInit ∧
    s'.rolePercentage = s.rolePercentage ∧
    s'.employees = upd s.employees sender
      { performance := sc % U64, role := r, hasWithdrawn := false,
        hasCommitted := true, decryptedBonus := 0 } ∧
    s'.employeeList = s.employeeList ++ [sender] ∧
    s'.requestToEmployee = s.requestToEmployee ∧
    s'.decryptionRequestIdPool = s.decryptionRequestIdPool ∧
    s'.decryptionRequestIdBonus = s.decryptionRequestIdBonus ∧
    s'.reentrancyStatus = s.reentrancyStatus ∧
    s'.nextRequestId = s.nextRequestId ∧
    s'.requestedValue = s.requestedValue := by
  unfold commitPerformance at h
  split at h
  · cases h
  next hrole =>
    split at h
    · cases h
    next hw =>
      split at h
      · cases h
      next hinit =>
        split at h
        · cases h
        next hc =>
          simp only [Except.ok.injEq] at h
          subst h
          simp only [not_not, Bool.not_eq_true] at hinit hw hc
          refine ⟨hrole, by simp [hw], by simp [hinit], by simp [hc],
            rfl, rfl, rfl, rfl, rfl, rfl, rfl, rfl, rfl, rfl, rfl, rfl, rfl⟩

/-- Inversion of an accepted `withdrawBonusFlag` call (state as of the
moment the decryption request is issued). -/
theorem withdrawBonusFlag_ok {s : PoolState} {sender : Address}
    {s1 : PoolState} {b : Nat} (h : withdrawBonusFlag s sender = .ok (s1, b)) :
    (s.employees sender).hasCommitted = true ∧
    (s.employees sender).hasWithdrawn = false ∧
    b = fheBonus (s.employees sender).performance
      (s.rolePercentage (s.employees sender).role) s.encryptedPool ∧
    s1.manager = s.manager ∧
    s1.actualPool = s.actualPool ∧
    s1.encryptedPool = s.encryptedPool ∧
    s1.encPoolInit = s.encPoolInit ∧
    s1.rolePercentage = s.rolePercentage ∧
    s1.employees = upd s.employees sender
      { s.employees sender with hasWithdrawn := true } ∧
    s1.employeeList = s.employeeList ∧
    s1.requestToEmployee = s.requestToEmployee ∧
    s1.decryptionRequestIdPool = s.decryptionRequestIdPool ∧
    s1.decryptionRequestIdBonus = s.decryptionRequestIdBonus ∧
    s1.reentrancyStatus = s.reentrancyStatus ∧
    s1.nextRequestId = s.nextRequestId ∧
    s1.requestedValue = s.requestedValue := by
  unfold withdrawBonusFlag at h
  split at h
  · cases h
  next hc =>
    split at h
    · cases h
    next hw =>
      simp only [Except.ok.injEq, Prod.mk.injEq] at h
      obtain ⟨hs, hb⟩ := h
      subst hs
      simp only [not_not, Bool.not_eq_true] at hc hw
      exact ⟨by simp [hc], by simp [hw], hb.symm, rfl, rfl, rfl, rfl, rfl, rfl,
        rfl, rfl, rfl, rfl, rfl, rfl, rfl⟩

/-- Inversion of an accepted `withdrawBonus` call: it is the flagged state
of `withdrawBonusFlag` with the decryption request opened on top. -/
theorem withdrawBonus_ok {s : PoolState} {sender : Address} {s' : PoolState}
    {rid : Nat} (h : withdrawBonus s sender = .ok (s', rid)) :
    ∃ s1 b, withdrawBonusFlag s sender = .ok (s1, b) ∧
      rid = s1.nextRequestId ∧
      s'.manager = s1.manager ∧
      s'.actualPool = s1.actualPool ∧
      s'.encryptedPool = s1.encryptedPool ∧
      s'.encPoolInit = s1.encPoolInit ∧
      s'.rolePercentage = s1.rolePercentage ∧
      s'.employees = s1.employees ∧
      s'.employeeList = s1.employeeList ∧
      s'.requestToEmployee = upd s1.requestToEmployee s1.nextRequestId sender ∧
      s'.decryptionRequestIdPool = s1.decryptionRequestIdPool ∧
      s'.decryptionRequestIdBonus = s1.nextRequestId ∧
      s'.reentrancyStatus = s1.reentrancyStatus ∧
      s'.nextRequestId = s1.nextRequestId + 1 ∧
      s'.requestedValue = upd s1.requestedValue s1.nextRequestId (some b) := by
  unfold withdrawBonus at h
  cases hE : withdrawBonusFlag s sender with
  | error e => rw [hE] at h; cases h
  | ok p =>
      obtain ⟨s1, b⟩ := p
      rw [hE] at h
      simp only [Except.ok.injEq, Prod.mk.injEq] at h
      obtain ⟨hs, hr⟩ := h
      subst hs; subst hr
      exact ⟨s1, b, rfl, rfl, rfl, rfl, rfl, rfl, rfl, rfl, rfl, rfl, rfl, rfl,
        rfl, rfl, rfl⟩

/-- Inversion of an accepted `callbackPayBonusEnter`: the state in force
at the external ETH transfer of `callbackPayBonus`. -/
theorem callbackPayBonusEnter_ok {s : PoolState} {id d : Nat} {m : PoolState}
    {e : Address} {b : Nat} (h : callbackPayBonusEnter s id d = .ok (m, e, b)) :
    s.reentrancyStatus = 0 ∧
    s.requestedValue id = some d ∧
    s.requestToEmployee id ≠ 0 ∧
    d ≠ 0 ∧
    d ≤ s.actualPool ∧
    e = s.requestToEmployee id ∧
    b = d ∧
    m.manager = s.manager ∧
    m.actualPool = s.actualPool - d ∧
    m.encryptedPool = (s.encryptedPool + (U64 - d % U64)) % U64 ∧
    m.encPoolInit = s.encPoolInit ∧
    m.rolePercentage = s.rolePercentage ∧
    m.employees = s.employees ∧
    m.employeeList = s.employeeList ∧
    m.requestToEmployee = s.requestToEmployee ∧
    m.decryptionRequestIdPool = s.decryptionRequestIdPool ∧
    m.decryptionRequestIdBonus = s.decryptionRequestIdBonus ∧
    m.reentrancyStatus = 1 ∧
    m.nextRequestId = s.nextRequestId ∧
    m.requestedValue = s.requestedValue := by
  unfold callbackPayBonusEnter at h
  split at h
  · cases h
  next hst =>
    split at h
    · cases h
    next hsig =>
      split at h
      · cases h
      next hemp =>
        split at h
        · cases h
        next hz =>
          split at h
          · cases h
          next hle =>
            simp only [Except.ok.injEq, Prod.mk.injEq] at h
            obtain ⟨hm, he, hb⟩ := h
            subst hm; subst he; subst hb
            simp only [not_not] at hst hsig hle
            exact ⟨hst, hsig, hemp, hz, hle, rfl, rfl, rfl, rfl, rfl, rfl, rfl,
              rfl, rfl, rfl, rfl, rfl, rfl, rfl, rfl⟩

/-- Inversion of an accepted `callbackPayBonus` call: the `Enter` half
followed by the bookkeeping after the transfer, with the effect trace. -/
theorem callbackPayBonus_ok {s : PoolState} {id d : Nat} {s' : PoolState}
    {tr : List Effect} (h : callbackPayBonus s id d = .ok (s', tr)) :
    ∃ m e b, callbackPayBonusEnter s id d = .ok (m, e, b) ∧
      tr = [Effect.subEncrypted b, Effect.subClear b, Effect.ethTransfer e b,
            Effect.recordBonus e b, Effect.closeRequest id] ∧
      s'.manager = m.manager ∧
      s'.actualPool = m.actualPool ∧
      s'.encryptedPool = m.encryptedPool ∧
      s'.encPoolInit = m.encPoolInit ∧
      s'.rolePercentage = m.rolePercentage ∧
      s'.employees = upd m.employees e
        { m.employees e with decryptedBonus := b } ∧
      s'.employeeList = m.employeeList ∧
      s'.requestToEmployee = upd m.requestToEmployee id 0 ∧
      s'.decryptionRequestIdPool = m.decryptionRequestIdPool ∧
      s'.decryptionRequestIdBonus = m.decryptionRequestIdBonus ∧
      s'.reentrancyStatus = 0 ∧
      s'.nextRequestId = m.nextRequestId ∧
      s'.requestedValue = m.requestedValue := by
  unfold callbackPayBonus at h
  cases hE : callbackPayBonusEnter s id d with
  | error e => rw [hE] at h; cases h
  | ok p =>
      obtain ⟨m, e, b⟩ := p
      rw [hE] at h
      simp only [Except.ok.injEq, Prod.mk.injEq] at h
      obtain ⟨hs, ht⟩ := h
      subst hs; subst ht
      exact ⟨m, e, b, rfl, rfl, rfl, rfl, rfl, rfl, rfl, rfl, rfl, rfl, rfl,
        rfl, rfl, rfl, rfl⟩

/-- Inversion of an accepted `withdrawRemaining` call. -/
theorem withdrawRemaining_ok {s : PoolState} {sender : Address}
    {s' : PoolState} {rid : Nat} (h : withdrawRemaining s sender = .ok (s', rid)) :
    sender = s.manager ∧ s.actualPool ≠ 0 ∧ rid = s.nextRequestId ∧
    s'.manager = s.manager ∧
    s'.actualPool = s.actualPool ∧
    s'.encryptedPool = s.encryptedPool ∧
    s'.encPoolInit = s.encPoolInit ∧
    s'.rolePercentage = s.rolePercentage ∧
    s'.employees = s.employees ∧
    s'.employeeList = s.employeeList ∧
    s'.requestToEmployee = s.requestToEmployee ∧
    s'.decryptionRequestIdPool = s.nextRequestId ∧
    s'.decryptionRequestIdBonus = s.decryptionRequestIdBonus ∧
    s'.reentrancyStatus = s.reentrancyStatus ∧
    s'.nextRequestId = s.nextRequestId + 1 ∧
    s'.requestedValue = upd s.requestedValue s.nextRequestId (some s.encryptedPool) := by
  unfold withdrawRemaining at h
  split at h
  · cases h
  next hm =>
    split at h
    · cases h
    next hp =>
      simp only [Except.ok.injEq, Prod.mk.injEq] at h
      obtain ⟨hs, hr⟩ := h
      subst hs; subst hr
      simp only [not_not] at hm
      exact ⟨hm, hp, rfl, rfl, rfl, rfl, rfl, rfl, rfl, rfl, rfl, rfl, rfl,
        rfl, rfl, rfl⟩

/-- Inversion of an accepted `callbackWithdrawRemaining` call. -/
theorem callbackWithdrawRemaining_ok {s : PoolState} {id d : Nat}
    {s' : PoolState} {tr : List Effect}
    (h : callbackWithdrawRemaining s id d = .ok (s', tr)) :
    s.reentrancyStatus = 0 ∧
    s.requestedValue id = some d ∧
    id = s.decryptionRequestIdPool ∧
    d ≤ s.actualPool ∧
    d ≠ 0 ∧
    tr = [Effect.ethTransfer s.manager s.actualPool] ∧
    s'.manager = s.manager ∧
    s'.actualPool = 0 ∧
    s'.encryptedPool = 0 ∧
    s'.encPoolInit = s.encPoolInit ∧
    s'.rolePercentage = s.rolePercentage ∧
    s'.employees = s.employees ∧
    s'.employeeList = s.employeeList ∧
    s'.requestToEmployee = s.requestToEmployee ∧
    s'.decryptionRequestIdPool = 0 ∧
    s'.decryptionRequestIdBonus = s.decryptionRequestIdBonus ∧
    s'.reentrancyStatus = 0 ∧
    s'.nextRequestId = s.nextRequestId ∧
    s'.requestedValue = s.requestedValue := by
  unfold callbackWithdrawRemaining at h
  split at h
  · cases h
  next hst =>
    split at h
    · cases h
    next hsig =>
      split at h
      · cases h
      next hid =>
        split at h
        · cases h
        next hle =>
          split at h
          · cases h
          next hz =>
            simp only [Except.ok.injEq, Prod.mk.injEq] at h
            obtain ⟨hs, ht⟩ := h
            subst hs; subst ht
            simp only [not_not] at hst hsig hid hle
            exact ⟨hst, hsig, hid, hle, hz, rfl, rfl, rfl, rfl, rfl, rfl, rfl,
              rfl, rfl, rfl, rfl, rfl, rfl, rfl⟩

/-- Both registry invariants transport along operations that keep
`employees` and `requestToEmployee` unchanged. -/
theorem invs_frame {s s' : PoolState} (he : s'.employees = s.employees)
    (hr : s'.requestToEmployee = s.requestToEmployee)
    (h : InvReq s ∧ InvSettled s) : InvReq s' ∧ InvSettled s' := by
  constructor
  · intro id hid
    rw [hr] at hid ⊢
    rw [he]
    exact h.1 id hid
  · intro a ha
    rw [he] at ha ⊢
    exact h.2 a ha

/-- The registry invariants survive an accepted `commitPerformance`. -/
theorem invs_commit {s s' : PoolState} {sender : Address} {sc : Nat} {r : Role}
    (heq : commitPerformance s sender sc r = .ok s')
    (ih : InvReq s ∧ InvSettled s) : InvReq s' ∧ InvSettled s' := by
  obtain ⟨-, hw, -, -, -, -, -, -, -, hemp, -, hreq, -, -, -, -, -⟩ :=
    commitPerformance_ok heq
  constructor
  · intro id hid
    rw [hreq] at hid ⊢
    rw [hemp]
    have hx := ih.1 id hid
    by_cases hcon : s.requestToEmployee id = sender
    · exact absurd (hcon ▸ hx) (by simp [hw])
    · simp only [upd, if_neg hcon]
      exact hx
  · intro a ha
    rw [hemp] at ha ⊢
    by_cases hc : a = sender
    · subst hc
      simp only [upd, if_pos rfl] at ha
      cases ha rfl
    · simp only [upd, if_neg hc] at ha ⊢
      exact ih.2 a ha

/-- The registry invariants survive an accepted `withdrawBonus`. -/
theorem invs_withdraw {s s' : PoolState} {sender : Address} {rid : Nat}
    (heq : withdrawBonus s sender = .ok (s', rid))
    (ih : InvReq s ∧ InvSettled s) : InvReq s' ∧ InvSettled s' := by
  obtain ⟨s1, b, hflag, -, -, -, -, -, -, hemp, -, hreq, -, -, -, -, -⟩ :=
    withdrawBonus_ok heq
  obtain ⟨-, -, -, -, -, -, -, -, hemp1, -, hreq1, -, -, -, -, -⟩ :=
    withdrawBonusFlag_ok hflag
  constructor
  · intro id hid
    rw [hreq, hreq1] at hid ⊢
    rw [hemp, hemp1]
    by_cases hc : id = s1.nextRequestId
    · subst hc
      simp [upd]
    · simp only [upd, if_neg hc] at hid ⊢
      by_cases hc2 : s.requestToEmployee id = sender
      · simp only [if_pos hc2]
      · simp only [if_neg hc2]
        exact ih.1 id hid
  · intro a ha
    rw [hemp, hemp1] at ha ⊢
    by_cases hc : a = sender
    · subst hc
      simp [upd]
    · simp only [upd, if_neg hc] at ha ⊢
      exact ih.2 a ha

/-- The registry invariants survive an accepted `callbackPayBonus`. -/
theorem invs_pay {s s' : PoolState} {id d : Nat} {tr : List Effect}
    (heq : callbackPayBonus s id d = .ok (s', tr))
    (ih : InvReq s ∧ InvSettled s) : InvReq s' ∧ InvSettled s' := by
  obtain ⟨m, e, b, hEnter, -, -, -, -, -, -, hemp, -, hreq, -, -, -, -, -⟩ :=
    callbackPayBonus_ok heq
  obtain ⟨-, -, hne, -, -, he', -, -, -, -, -, -, hempm, -, hreqm, -, -, -, -, -⟩ :=
    callbackPayBonusEnter_ok hEnter
  have hflagE : (s.employees e).hasWithdrawn = true := by
    rw [he']
    exact ih.1 id hne
  constructor
  · intro id' hid'
    rw [hreq, hreqm] at hid' ⊢
    rw [hemp, hempm]
    by_cases hc : id' = id
    · subst hc
      simp [upd] at hid'
    · simp only [upd, if_neg hc] at hid' ⊢
      by_cases hc2 : s.requestToEmployee id' = e
      · simp only [if_pos hc2]
        exact hflagE
      · simp only [if_neg hc2]
        exact ih.1 id' hid'
  · intro a ha
    rw [hemp, hempm] at ha ⊢
    by_cases hc : a = e
    · subst hc
      simp only [upd, if_pos rfl]
      exact hflagE
    · simp only [upd, if_neg hc] at ha ⊢
      exact ih.2 a ha

/-- Both registry invariants hold in every reachable state. -/
theorem reach_inv {s : PoolState} (h : Reach s) : InvReq s ∧ InvSettled s := by
  induction h with
  | init m =>
      constructor
      · intro id hid
        simp [initState] at hid
      · intro a ha
        simp [initState, defaultEmployee] at ha
  | fund sender v enc rid hr heq ih =>
      obtain ⟨-, -, -, -, -, -, -, -, hemp, -, hreq, -, -, -, -, -⟩ := fundPool_ok heq
      exact invs_frame hemp hreq ih
  | verify id d hr heq ih =>
      obtain ⟨-, -, -, -, -, -, -, -, hemp, -, hreq, -, -, -, -, -⟩ :=
        callbackVerifyPool_ok heq
      exact invs_frame hemp hreq ih
  | commit sender sc r hr heq ih => exact invs_commit heq ih
  | withdraw sender rid hr heq ih => exact invs_withdraw heq ih
  | pay id d tr hr heq ih => exact invs_pay heq ih
  | remain sender rid hr heq ih =>
      obtain ⟨-, -, -, -, -, -, -, -, hemp, -, hreq, -, -, -, -, -⟩ :=
        withdrawRemaining_ok heq
      exact invs_frame hemp hreq ih
  | settleRemain id d tr hr heq ih =>
      obtain ⟨-, -, -, -, -, -, -, -, -, -, -, hemp, -, hreq, -, -, -, -, -⟩ :=
        callbackWithdrawRemaining_ok heq
      exact invs_frame hemp hreq ih

/-- The bonus ciphertext value always fits in 64 bits. -/
theorem fheBonus_lt (a b c : Nat) : fheBonus a b c < U64 := by
  unfold fheBonus
  exact Nat.lt_of_le_of_lt (Nat.div_le_self _ _) (Nat.mod_lt _ (by norm_num [U64]))

/-- Lemma: `HonestInv` transports along operations keeping the balances and the
oracle log unchanged. -/
theorem honestInv_frame {s s' : PoolState}
    (ha : s'.actualPool = s.actualPool) (he : s'.encryptedPool = s.encryptedPool)
    (hq : s'.requestedValue = s.requestedValue) (ih : HonestInv s) :
    HonestInv s' := by
  constructor
  · rw [ha, he]
    exact ih.1
  · intro id v hv
    rw [hq] at hv
    exact ih.2 id v hv

/-- Lemma: `HonestInv` survives an honest `fundPool` (ciphertext = `msg.value`). -/
theorem honestInv_fund {s s' : PoolState} {sender : Address} {v rid : Nat}
    (hv : v < U64) (heq : fundPool s sender v v = .ok (s', rid))
    (ih : HonestInv s) : HonestInv s' := by
  obtain ⟨-, -, hrid, -, ha, he, -, -, -, -, -, -, -, -, -, hq⟩ := fundPool_ok heq
  constructor
  · rw [ha, he, ih.1]
    simp only [U64] at hv ⊢
    omega
  · intro id w hw
    rw [hq] at hw
    simp only [upd] at hw
    by_cases hc : id = s.nextRequestId
    · rw [if_pos hc] at hw
      cases hw
      exact Nat.mod_lt _ (by norm_num [U64])
    · rw [if_neg hc] at hw
      exact ih.2 id w hw

/-- Lemma: `HonestInv` survives an accepted `withdrawBonus` (the logged bonus
plaintext fits in 64 bits). -/
theorem honestInv_withdraw {s s' : PoolState} {sender : Address} {rid : Nat}
    (heq : withdrawBonus s sender = .ok (s', rid)) (ih : HonestInv s) :
    HonestInv s' := by
  obtain ⟨s1, b, hflag, -, -, ha, he, -, -, -, -, -, -, -, -, -, hq⟩ :=
    withdrawBonus_ok heq
  obtain ⟨-, -, hb, -, ha1, he1, -, -, -, -, -, -, -, -, -, hq1⟩ :=
    withdrawBonusFlag_ok hflag
  constructor
  · rw [ha, he, ha1, he1]
    exact ih.1
  · intro id w hw
    rw [hq, hq1] at hw
    simp only [upd] at hw
    by_cases hc : id = s1.nextRequestId
    · rw [if_pos hc] at hw
      cases hw
      rw [hb]
      exact fheBonus_lt _ _ _
    · rw [if_neg hc] at hw
      exact ih.2 id w hw

/-- Lemma: `HonestInv` survives an accepted `callbackPayBonus`: both balances are
debited by the same (64-bit) amount. -/
theorem honestInv_pay {s s' : PoolState} {id d : Nat} {tr : List Effect}
    (heq : callbackPayBonus s id d = .ok (s', tr)) (ih : HonestInv s) :
    HonestInv s' := by
  obtain ⟨m, e, b, hEnter, -, -, ha, he, -, -, -, -, -, -, -, -, -, hq⟩ :=
    callbackPayBonus_ok heq
  obtain ⟨-, hsig, -, -, hle, -, -, -, ham, hem, -, -, -, -, -, -, -, -, -, hqm⟩ :=
    callbackPayBonusEnter_ok hEnter
  have hd : d < U64 := ih.2 id d hsig
  constructor
  · rw [ha, he, ham, hem, ih.1]
    simp only [U64] at hd ⊢
    omega
  · intro id' w hw
    rw [hq, hqm] at hw
    exact ih.2 id' w hw

/-- Lemma: `HonestInv` survives `withdrawRemaining` (the logged pool snapshot
fits in 64 bits). -/
theorem honestInv_remain {s s' : PoolState} {sender : Address} {rid : Nat}
    (heq : withdrawRemaining s sender = .ok (s', rid)) (ih : HonestInv s) :
    HonestInv s' := by
  obtain ⟨-, -, -, -, ha, he, -, -, -, -, -, -, -, -, -, hq⟩ :=
    withdrawRemaining_ok heq
  constructor
  · rw [ha, he]
    exact ih.1
  · intro id w hw
    rw [hq] at hw
    simp only [upd] at hw
    by_cases hc : id = s.nextRequestId
    · rw [if_pos hc] at hw
      cases hw
      rw [ih.1]
      exact Nat.mod_lt _ (by norm_num [U64])
    · rw [if_neg hc] at hw
      exact ih.2 id w hw

/-- Lemma: `HonestInv` holds in every state reachable under valid fundings. -/
theorem honest_inv {s : PoolState} (h : HonestReach s) : HonestInv s := by
  induction h with
  | init m =>
      constructor
      · simp [initState]
      · intro id v hv
        simp [initState] at hv
  | fund sender v rid hv hr heq ih => exact honestInv_fund hv heq ih
  | verify id d hr heq ih =>
      obtain ⟨-, -, -, -, ha, he, -, -, -, -, -, -, -, -, -, hq⟩ :=
        callbackVerifyPool_ok heq
      exact honestInv_frame ha he hq ih
  | commit sender sc r hr heq ih =>
      obtain ⟨-, -, -, -, -, ha, he, -, -, -, -, -, -, -, -, -, hq⟩ :=
        commitPerformance_ok heq
      exact honestInv_frame ha he hq ih
  | withdraw sender rid hr heq ih => exact honestInv_withdraw heq ih
  | pay id d tr hr heq ih => exact honestInv_pay heq ih
  | remain sender rid hr heq ih => exact honestInv_remain heq ih
  | settleRemain id d tr hr heq ih =>
      obtain ⟨-, -, -, -, -, -, -, ha, he, -, -, -, -, -, -, -, -, -, hq⟩ :=
        callbackWithdrawRemaining_ok heq
      constructor
      · rw [ha, he]
        simp
      · intro id' w hw
        rw [hq] at hw
        exact ih.2 id' w hw

/-- C10: only the pool manager can fund the pool — for every caller other
than the manager, `fundPool` reverts with the authorization error
"Only manager", and the revert leaves every balance, participant record
and pending-request slot unchanged. -/
theorem c10_only_manager_funds (s : PoolState) (sender : Address) (v enc : Nat)
    (h : sender ≠ s.manager) :
    fundPool s sender v enc = .error "Only manager" := by
  unfold fundPool
  rw [if_pos h]

/-- Witness for C10: a non-manager caller on a fresh pool. -/
theorem c10_only_manager_funds_witness :
    fundPool (initState 1) 2 5 5 = Except.error "Only manager" :=
  c10_only_manager_funds (initState 1) 2 5 5 (by decide)

/-- C7 (code bug): on a freshly deployed pool that has never received a
funding event, `commitPerformance` with a valid tier nevertheless succeeds
— the guard `FHE.isInitialized(encryptedPool)` ("Pool not funded") is
vacuously true because the constructor already initializes `encryptedPool`
to an encryption of 0, so the commitment the spec requires to fail with
`PoolUninitialized` is accepted (and opens no decryption request). -/
theorem c7_commit_on_unfunded_pool :
    (initState 1).actualPool = 0 ∧
    (initState 1).nextRequestId = 1 ∧
    isOkE (commitPerformance (initState 1) 2 50 Role.Junior) = true ∧
    ((okPS (commitPerformance (initState 1) 2 50 Role.Junior)).employees 2).hasCommitted
      = true ∧
    (okPS (commitPerformance (initState 1) 2 50 Role.Junior)).nextRequestId = 1 := by
  exact ⟨rfl, rfl, rfl, rfl, rfl⟩

/-- C3: an accepted bonus-settlement callback removes the pending request
(`requestToEmployee[id]` becomes `address(0)`), so redelivering the same
callback fails with the unknown-request rejection "Invalid employee", and
any other payload for that id also fails — a revert performs no payment
and changes no state. -/
theorem c3_no_replay (s : PoolState) (id d : Nat) (s' : PoolState)
    (tr : List Effect) (h : callbackPayBonus s id d = .ok (s', tr)) :
    s'.requestToEmployee id = 0 ∧
    callbackPayBonus s' id d = .error "Invalid employee" ∧
    ∀ d', isOkE (callbackPayBonus s' id d') = false := by
  obtain ⟨m, e, b, hEnter, -, -, -, -, -, -, -, -, hreq, -, -, hst, -, hq⟩ :=
    callbackPayBonus_ok h
  obtain ⟨-, hsig, -, -, -, -, -, -, -, -, -, -, -, -, hreqm, -, -, -, -, hqm⟩ :=
    callbackPayBonusEnter_ok hEnter
  have hr0 : s'.requestToEmployee id = 0 := by
    rw [hreq]
    simp [upd]
  have hsig' : s'.requestedValue id = some d := by
    rw [hq, hqm]
    exact hsig
  have herr : callbackPayBonus s' id d = .error "Invalid employee" := by
    unfold callbackPayBonus callbackPayBonusEnter
    rw [hst, hsig', hr0]
    simp
  refine ⟨hr0, herr, ?_⟩
  intro d'
  by_cases hd : d' = d
  · subst hd
    rw [herr]
    rfl
  · have hE : callbackPayBonusEnter s' id d' = .error "Invalid signatures" := by
      unfold callbackPayBonusEnter
      rw [hst, hsig']
      simp [Ne.symm hd]
    unfold callbackPayBonus
    rw [hE]
    rfl

/-- Witness for C3: the scenario settlement replayed. -/
theorem c3_no_replay_witness :
    sPaid.requestToEmployee 2 = 0 ∧
    callbackPayBonus sPaid 2 64000 = Except.error "Invalid employee" := by
  have h := c3_no_replay sWithdrawn 2 64000 sPaid
    [Effect.subEncrypted 64000, Effect.subClear 64000, Effect.ethTransfer 2 64000,
     Effect.recordBonus 2 64000, Effect.closeRequest 2] rfl
  exact ⟨h.1, h.2.1⟩

/-- C1 counterexample: after a settled first funding of 100, a second
honest funding declares 50 (its ciphertext genuinely decrypts to 50, the
oracle log and the outstanding slot agree), yet the verification callback
reverts with "Encrypted pool mismatch" — the code compares the decrypted
value against the cumulative `actualPool` (150), not against the declared
amount recorded when that funding request was opened (50). -/
theorem c1_counterexample :
    isOkE (callbackVerifyPool c1s1 1 100) = true ∧
    isOkE (fundPool c1s2 1 50 50) = true ∧
    c1s3.requestedValue 2 = some 50 ∧
    c1s3.decryptionRequestIdPool = 2 ∧
    c1s3.actualPool = 150 ∧
    callbackVerifyPool c1s3 2 50 = Except.error "Encrypted pool mismatch" := by
  exact ⟨rfl, rfl, rfl, rfl, rfl, rfl⟩

/-- C1 (amended): an accepted VerifyFunding callback asserts that the
decrypted value equals the *current cleartext pool balance* `actualPool`
(which coincides with the declared funding amount only when that funding
is the whole balance, e.g. the first funding); a genuine, slot-matching
callback whose value differs from `actualPool` reverts with the
pool-mismatch error; and for every valid funding sequence, immediately
after each successful VerifyFunding settlement the decrypted value of the
encrypted pool balance equals the cleartext pool balance. -/
theorem c1_amended :
    (∀ s : PoolState, ∀ id d : Nat, ∀ s' : PoolState,
      callbackVerifyPool s id d = .ok s' →
        d = s.actualPool ∧ s.requestedValue id = some d ∧
        id = s.decryptionRequestIdPool ∧
        s'.actualPool = s.actualPool ∧ s'.encryptedPool = s.encryptedPool) ∧
    (∀ s : PoolState, ∀ id d : Nat,
      s.requestedValue id = some d → id = s.decryptionRequestIdPool →
      d ≠ s.actualPool →
      callbackVerifyPool s id d = .error "Encrypted pool mismatch") ∧
    (∀ s : PoolState, ∀ id d : Nat, ∀ s' : PoolState, HonestReach s →
      callbackVerifyPool s id d = .ok s' →
      s'.encryptedPool = s'.actualPool) := by
  refine ⟨?_, ?_, ?_⟩
  · intro s id d s' h
    obtain ⟨hsig, hid, hd, -, ha, he, -, -, -, -, -, -, -, -, -, -⟩ :=
      callbackVerifyPool_ok h
    exact ⟨hd, hsig, hid, ha, he⟩
  · intro s id d h1 h2 h3
    unfold callbackVerifyPool
    rw [h1]
    simp [h2, h3]
  · intro s id d s' hre h
    have hin := honest_inv hre
    obtain ⟨hsig, -, hd, -, ha, he, -, -, -, -, -, -, -, -, -, -⟩ :=
      callbackVerifyPool_ok h
    have hlt : s.actualPool < U64 := hd ▸ hin.2 id d hsig
    rw [he, ha, hin.1]
    exact Nat.mod_eq_of_lt hlt

/-- Witness for C1: the settled honest first funding of the scenario. -/
theorem c1_amended_witness :
    sVerified.encryptedPool = sVerified.actualPool ∧
    sVerified.actualPool = 1000000 := by
  have hreach : HonestReach sFund :=
    HonestReach.fund 1 1000000 1 (by norm_num [U64]) (HonestReach.init 1) rfl
  exact ⟨c1_amended.2.2 sFund 1 1000000 sVerified hreach rfl, rfl⟩

/-- C2 counterexample: a committed participant may hold any 64-bit score;
score `2^60` at tier Lead (2000 bp) on a pool of 1 makes
`FHE.mul(score, rolePct)` wrap to 0 mod `2^64`, so the encrypted bonus
computed at withdrawal time is 0 while the exact floor-division formula
gives 2305843009213693 — the code's bonus does not equal the formula for
every committed participant. -/
theorem c2_counterexample :
    (cxCommitted.employees 2).hasCommitted = true ∧
    (cxCommitted.employees 2).performance = 2 ^ 60 ∧
    cxCommitted.rolePercentage Role.Lead = 2000 ∧
    cxCommitted.encryptedPool = 1 ∧
    isOkE (withdrawBonus cxCommitted 2) = true ∧
    (okPS1 (withdrawBonus cxCommitted 2)).requestedValue 2 =
      some (fheBonus (2 ^ 60) 2000 1) ∧
    fheBonus (2 ^ 60) 2000 1 = 0 ∧
    2 ^ 60 * 2000 / 100 * 1 / 10000 = 2305843009213693 := by
  exact ⟨rfl, by decide, rfl, rfl, rfl, rfl, by decide, by decide⟩

/-- C2 (amended): the encrypted bonus equals
`floor(floor(score*tierBasisPoints/100) * poolBalance / 10000)` — the two
floor divisions in exactly that order — whenever the two 64-bit products
do not overflow (`score*bp < 2^64` and `floor(score*bp/100)*pool < 2^64`,
which holds in particular for the intended score range 0-100 with the
scenario pool); and in the scenario (pool 1000000, score 80, tier Mid =
800 bp) the settlement pays exactly 64000 to the participant and leaves
the cleartext pool balance at 936000. -/
theorem c2_amended :
    (∀ score bp pool : Nat, score * bp < U64 → score * bp / 100 * pool < U64 →
      fheBonus score bp pool = score * bp / 100 * pool / 10000) ∧
    sWithdrawn.requestedValue 2 = some (fheBonus 80 800 1000000) ∧
    fheBonus 80 800 1000000 = 64000 ∧
    callbackPayBonus sWithdrawn 2 64000 = Except.ok (sPaid,
      [Effect.subEncrypted 64000, Effect.subClear 64000,
       Effect.ethTransfer 2 64000, Effect.recordBonus 2 64000,
       Effect.closeRequest 2]) ∧
    sPaid.actualPool = 936000 ∧
    sPaid.encryptedPool = 936000 ∧
    (sPaid.employees 2).decryptedBonus = 64000 := by
  refine ⟨?_, rfl, by decide, rfl, rfl, rfl, rfl⟩
  intro score bp pool h1 h2
  unfold fheBonus
  rw [Nat.mod_eq_of_lt h1, Nat.mod_eq_of_lt h2]

/-- Witness for C2: the no-overflow equality at the scenario numbers. -/
theorem c2_amended_witness :
    fheBonus 80 800 1000000 = 80 * 800 / 100 * 1000000 / 10000 :=
  c2_amended.1 80 800 1000000 (by decide) (by decide)

/-- C5 counterexample: in the accepted scenario settlement the effect
trace, in source statement order, performs the ETH transfer *before* the
`delete requestToEmployee[requestId]` — no `closeRequest` precedes the
transfer — refuting the claim that the pending request is closed strictly
before the external fund transfer. -/
theorem c5_counterexample :
    isOkE (callbackPayBonus sWithdrawn 2 64000) = true ∧
    okTrace (callbackPayBonus sWithdrawn 2 64000) =
      [Effect.subEncrypted 64000, Effect.subClear 64000,
       Effect.ethTransfer 2 64000, Effect.recordBonus 2 64000,
       Effect.closeRequest 2] ∧
    closedBeforeTransfer (okTrace (callbackPayBonus sWithdrawn 2 64000)) = false := by
  exact ⟨rfl, rfl, rfl⟩

/-- C5 (amended): the pending request is removed only *after* the external
transfer (the trace closes the request last, and at the moment of the
transfer the request is still registered); a reentrant settlement attempt
during the transfer is instead excluded by the `nonReentrant` status word,
which is already 1 at transfer time, so any nested `callbackPayBonus`
reverts with "Reentrancy". -/
theorem c5_amended (s : PoolState) (id d : Nat) (m : PoolState) (e : Address)
    (b : Nat) (h : callbackPayBonusEnter s id d = .ok (m, e, b)) :
    m.reentrancyStatus = 1 ∧
    m.requestToEmployee id = s.requestToEmployee id ∧
    s.requestToEmployee id ≠ 0 ∧
    (∀ id' d', callbackPayBonus m id' d' = .error "Reentrancy") ∧
    (∀ s' : PoolState, ∀ tr : List Effect,
      callbackPayBonus s id d = .ok (s', tr) →
        closedBeforeTransfer tr = false ∧
        Effect.ethTransfer e b ∈ tr ∧
        s'.requestToEmployee id = 0) := by
  obtain ⟨-, -, hne, -, -, -, -, -, -, -, -, -, -, -, hreqm, -, -, hst1, -, -⟩ :=
    callbackPayBonusEnter_ok h
  refine ⟨hst1, by rw [hreqm], hne, ?_, ?_⟩
  · intro id' d'
    unfold callbackPayBonus callbackPayBonusEnter
    rw [hst1]
    simp
  · intro s' tr h2
    obtain ⟨m2, e2, b2, hEnter2, htr, -, -, -, -, -, -, -, hreq2, -, -, -, -, -⟩ :=
      callbackPayBonus_ok h2
    rw [h] at hEnter2
    simp only [Except.ok.injEq, Prod.mk.injEq] at hEnter2
    obtain ⟨-, he2, hb2⟩ := hEnter2
    subst he2; subst hb2
    subst htr
    refine ⟨rfl, by simp, ?_⟩
    rw [hreq2]
    simp [upd]

/-- Witness for C5: the scenario settlement — the state at its transfer
rejects a nested settlement with "Reentrancy", and its trace does not
close the request before the transfer. -/
theorem c5_amended_witness :
    callbackPayBonus (okEnterPS (callbackPayBonusEnter sWithdrawn 2 64000)) 2 64000 =
      Except.error "Reentrancy" ∧
    closedBeforeTransfer (okTrace (callbackPayBonus sWithdrawn 2 64000)) = false := by
  have h := c5_amended sWithdrawn 2 64000
    (okEnterPS (callbackPayBonusEnter sWithdrawn 2 64000)) 2 64000 rfl
  refine ⟨h.2.2.2.1 2 64000, ?_⟩
  have h2 := (h.2.2.2.2 sPaid
    [Effect.subEncrypted 64000, Effect.subClear 64000, Effect.ethTransfer 2 64000,
     Effect.recordBonus 2 64000, Effect.closeRequest 2] rfl).1
  exact h2

/-- C6 counterexample: with a funding-verification request (id 1)
outstanding, the manager opens a remainder-settlement request (id 2);
both purposes share the single `decryptionRequestIdPool` slot, so the
genuine funding callback — which before the remainder request would have
been accepted — now reverts with "Invalid request ID": opening a request
of a different purpose invalidated the outstanding one. -/
theorem c6_counterexample :
    sSmallFund.decryptionRequestIdPool = 1 ∧
    sSmallFund.requestedValue 1 = some 100 ∧
    sSmallFund.actualPool = 100 ∧
    isOkE (callbackVerifyPool sSmallFund 1 100) = true ∧
    isOkE (withdrawRemaining sSmallFund 1) = true ∧
    sRemainReq.decryptionRequestIdPool = 2 ∧
    callbackVerifyPool sRemainReq 1 100 = Except.error "Invalid request ID" := by
  exact ⟨rfl, rfl, rfl, rfl, rfl, rfl, rfl⟩

/-- C6 (amended): bonus settlement is tracked in its own slot
(`decryptionRequestIdBonus` / `requestToEmployee`), so bonus requests and
settlements never touch the pool slot and funding/remainder operations
never touch the bonus registry; but funding verification and remainder
settlement *share* the single `decryptionRequestIdPool` slot — each of
`fundPool` and `withdrawRemaining` overwrites it with its own fresh id,
invalidating any outstanding request of the other purpose. -/
theorem c6_amended :
    (∀ s : PoolState, ∀ a : Address, ∀ s' : PoolState, ∀ rid : Nat,
      withdrawBonus s a = .ok (s', rid) →
        s'.decryptionRequestIdPool = s.decryptionRequestIdPool) ∧
    (∀ s : PoolState, ∀ id d : Nat, ∀ s' : PoolState, ∀ tr : List Effect,
      callbackPayBonus s id d = .ok (s', tr) →
        s'.decryptionRequestIdPool = s.decryptionRequestIdPool) ∧
    (∀ s : PoolState, ∀ sender : Address, ∀ v enc : Nat, ∀ s' : PoolState,
      ∀ rid : Nat, fundPool s sender v enc = .ok (s', rid) →
        s'.decryptionRequestIdPool = rid ∧
        s'.decryptionRequestIdBonus = s.decryptionRequestIdBonus ∧
        s'.requestToEmployee = s.requestToEmployee) ∧
    (∀ s : PoolState, ∀ sender : Address, ∀ s' : PoolState, ∀ rid : Nat,
      withdrawRemaining s sender = .ok (s', rid) →
        s'.decryptionRequestIdPool = rid ∧
        s'.decryptionRequestIdBonus = s.decryptionRequestIdBonus ∧
        s'.requestToEmployee = s.requestToEmployee) ∧
    (∀ s : PoolState, ∀ id d : Nat, ∀ s' : PoolState,
      callbackVerifyPool s id d = .ok s' →
        s'.decryptionRequestIdBonus = s.decryptionRequestIdBonus ∧
        s'.requestToEmployee = s.requestToEmployee) ∧
    (∀ s : PoolState, ∀ id d : Nat, ∀ s' : PoolState, ∀ tr : List Effect,
      callbackWithdrawRemaining s id d = .ok (s', tr) →
        s'.decryptionRequestIdBonus = s.decryptionRequestIdBonus ∧
        s'.requestToEmployee = s.requestToEmployee) := by
  refine ⟨?_, ?_, ?_, ?_, ?_, ?_⟩
  · intro s a s' rid h
    obtain ⟨s1, b, hflag, -, -, -, -, -, -, -, -, -, hpool, -, -, -, -⟩ :=
      withdrawBonus_ok h
    obtain ⟨-, -, -, -, -, -, -, -, -, -, -, hpool1, -, -, -, -⟩ :=
      withdrawBonusFlag_ok hflag
    rw [hpool, hpool1]
  · intro s id d s' tr h
    obtain ⟨m, e, b, hEnter, -, -, -, -, -, -, -, -, -, hpool, -, -, -, -⟩ :=
      callbackPayBonus_ok h
    obtain ⟨-, -, -, -, -, -, -, -, -, -, -, -, -, -, -, hpoolm, -, -, -, -⟩ :=
      callbackPayBonusEnter_ok hEnter
    rw [hpool, hpoolm]
  · intro s sender v enc s' rid h
    obtain ⟨-, -, hrid, -, -, -, -, -, -, -, hreq, hpool, hbon, -, -, -⟩ :=
      fundPool_ok h
    exact ⟨hrid ▸ hpool, hbon, hreq⟩
  · intro s sender s' rid h
    obtain ⟨-, -, hrid, -, -, -, -, -, -, -, hreq, hpool, hbon, -, -, -⟩ :=
      withdrawRemaining_ok h
    exact ⟨hrid ▸ hpool, hbon, hreq⟩
  · intro s id d s' h
    obtain ⟨-, -, -, -, -, -, -, -, -, -, hreq, -, hbon, -, -, -⟩ :=
      callbackVerifyPool_ok h
    exact ⟨hbon, hreq⟩
  · intro s id d s' tr h
    obtain ⟨-, -, -, -, -, -, -, -, -, -, -, -, -, hreq, -, hbon, -, -, -⟩ :=
      callbackWithdrawRemaining_ok h
    exact ⟨hbon, hreq⟩

/-- Witness for C6: funding and remainder requests on the concrete chain
both land in the shared pool slot; the bonus slot is untouched. -/
theorem c6_amended_witness :
    sSmallFund.decryptionRequestIdPool = 1 ∧
    sRemainReq.decryptionRequestIdPool = 2 ∧
    sRemainReq.decryptionRequestIdBonus = sSmallFund.decryptionRequestIdBonus := by
  refine ⟨(c6_amended.2.2.1 (initState 1) 1 100 100 sSmallFund 1 rfl).1,
    (c6_amended.2.2.2.1 sSmallFund 1 sRemainReq 2 rfl).1,
    (c6_amended.2.2.2.1 sSmallFund 1 sRemainReq 2 rfl).2.1⟩

/-- C8: remainder withdrawal on a pool with cleartext balance 0 reverts
with "No remaining funds" before any decryption request is opened; an
accepted remainder-settlement callback has a decrypted value that is
positive and at most the current cleartext pool balance, resets both
balances to zero and transfers the full cleartext balance to the pool
owner; a genuine slot-matching callback whose value exceeds the balance
reverts with "Pool mismatch", and one whose value is zero reverts with
"Nothing to withdraw". -/
theorem c8_remainder :
    (∀ s : PoolState, s.actualPool = 0 →
      withdrawRemaining s s.manager = .error "No remaining funds") ∧
    (∀ s : PoolState, ∀ id d : Nat, ∀ s' : PoolState, ∀ tr : List Effect,
      callbackWithdrawRemaining s id d = .ok (s', tr) →
        0 < d ∧ d ≤ s.actualPool ∧ s'.actualPool = 0 ∧ s'.encryptedPool = 0 ∧
        tr = [Effect.ethTransfer s.manager s.actualPool]) ∧
    (∀ s : PoolState, ∀ id d : Nat, s.reentrancyStatus = 0 →
      s.requestedValue id = some d → id = s.decryptionRequestIdPool →
      s.actualPool < d →
      callbackWithdrawRemaining s id d = .error "Pool mismatch") ∧
    (∀ s : PoolState, ∀ id : Nat, s.reentrancyStatus = 0 →
      s.requestedValue id = some 0 → id = s.decryptionRequestIdPool →
      callbackWithdrawRemaining s id 0 = .error "Nothing to withdraw") := by
  refine ⟨?_, ?_, ?_, ?_⟩
  · intro s h
    unfold withdrawRemaining
    simp [h]
  · intro s id d s' tr h
    obtain ⟨-, -, -, hle, hz, htr, -, ha, he, -, -, -, -, -, -, -, -, -, -⟩ :=
      callbackWithdrawRemaining_ok h
    exact ⟨Nat.pos_of_ne_zero hz, hle, ha, he, htr⟩
  · intro s id d hst hsig hid hgt
    have hnle : ¬ d ≤ s.actualPool := by omega
    unfold callbackWithdrawRemaining
    rw [hsig]
    simp [hst, hid, hnle]
  · intro s id hst hsig hid
    unfold callbackWithdrawRemaining
    rw [hsig]
    simp [hst, hid]

/-- Witness for C8: the empty fresh pool rejects remainder withdrawal, and
the concrete remainder settlement on the 100-wei pool zeroes both
balances. -/
theorem c8_remainder_witness :
    withdrawRemaining (initState 1) 1 = Except.error "No remaining funds" ∧
    (okPS2 (callbackWithdrawRemaining sRemainReq 2 100)).actualPool = 0 ∧
    (okPS2 (callbackWithdrawRemaining sRemainReq 2 100)).encryptedPool = 0 := by
  have h2 := c8_remainder.2.1 sRemainReq 2 100
    (okPS2 (callbackWithdrawRemaining sRemainReq 2 100))
    [Effect.ethTransfer 1 100] rfl
  exact ⟨c8_remainder.1 (initState 1) rfl, h2.2.2.1, h2.2.2.2.1⟩

/-- C9 counterexample: with tier Lead (2000 bp) and pool 10000, the
strictly larger score `2^60` yields a strictly smaller bonus than `2^59`
(the 64-bit product `score*2000` wraps to 0), so the bonus computed at
withdrawal time is not monotonic in the score for arbitrary committed
scores. -/
theorem c9_counterexample :
    rolePercentageInit Role.Lead = 2000 ∧
    (2 : Nat) ^ 59 ≤ 2 ^ 60 ∧
    fheBonus (2 ^ 60) 2000 10000 < fheBonus (2 ^ 59) 2000 10000 := by
  exact ⟨rfl, by decide, by decide⟩

/-- Monotonicity of the withdrawal-time bonus in the weighted product,
below the 64-bit overflow threshold. -/
theorem fheBonus_le_of_le {s1 b1 s2 b2 pool : Nat} (h : s1 * b1 ≤ s2 * b2)
    (h2 : s2 * b2 < U64) (h3 : s2 * b2 / 100 * pool < U64) :
    fheBonus s1 b1 pool ≤ fheBonus s2 b2 pool := by
  unfold fheBonus
  rw [Nat.mod_eq_of_lt (lt_of_le_of_lt h h2), Nat.mod_eq_of_lt h2]
  have m1 : s1 * b1 / 100 * pool ≤ s2 * b2 / 100 * pool :=
    Nat.mul_le_mul (Nat.div_le_div_right h) (le_refl pool)
  rw [Nat.mod_eq_of_lt (lt_of_le_of_lt m1 h3), Nat.mod_eq_of_lt h3]
  exact Nat.div_le_div_right m1

/-- C9 (amended): for a fixed pool balance the bonus computed at
withdrawal time is monotonic in the score and in the tier rank (basis
points 200/500/800/1200/2000 for Intern through Lead in enum order)
provided the intermediate 64-bit products do not wrap — in particular
throughout the intended score range; without that bound the wrap-around
counterexample applies. -/
theorem c9_amended :
    (∀ s1 s2 bp pool : Nat, s1 ≤ s2 → s2 * bp < U64 →
      s2 * bp / 100 * pool < U64 →
      fheBonus s1 bp pool ≤ fheBonus s2 bp pool) ∧
    (∀ t1 t2 : Role, roleIdx t1 ≤ roleIdx t2 → ∀ sc pool : Nat,
      sc * rolePercentageInit t2 < U64 →
      sc * rolePercentageInit t2 / 100 * pool < U64 →
      fheBonus sc (rolePercentageInit t1) pool ≤
        fheBonus sc (rolePercentageInit t2) pool) := by
  constructor
  · intro s1 s2 bp pool h hb hp
    exact fheBonus_le_of_le (Nat.mul_le_mul h (le_refl bp)) hb hp
  · intro t1 t2 ht sc pool hb hp
    have hle : rolePercentageInit t1 ≤ rolePercentageInit t2 := by
      revert ht
      cases t1 <;> cases t2 <;> decide
    exact fheBonus_le_of_le (Nat.mul_le_mul (le_refl sc) hle) hb hp

/-- Witness for C9: monotonicity at in-range scores and tiers. -/
theorem c9_amended_witness :
    fheBonus 50 800 1000000 ≤ fheBonus 80 800 1000000 ∧
    fheBonus 80 (rolePercentageInit Role.Junior) 1000 ≤
      fheBonus 80 (rolePercentageInit Role.Senior) 1000 := by
  exact ⟨c9_amended.1 50 80 800 1000000 (by decide) (by decide) (by decide),
    c9_amended.2 Role.Junior Role.Senior (by decide) 80 1000 (by decide) (by decide)⟩

/-- C4 counterexample: `hasWithdrawn` becomes true at `withdrawBonus`
time, at which moment `decryptedBonus` is still 0; the settled bonus is
written only later, by the settlement callback, an operation during which
`hasWithdrawn` is already true and does not become true — so `settledBonus`
is not written "at the moment `hasWithdrawn` becomes true". -/
theorem c4_counterexample :
    (sWithdrawn.employees 2).hasWithdrawn = true ∧
    (sWithdrawn.employees 2).decryptedBonus = 0 ∧
    isOkE (callbackPayBonus sWithdrawn 2 64000) = true ∧
    (sPaid.employees 2).decryptedBonus = 64000 ∧
    (sPaid.employees 2).hasWithdrawn = true := by
  exact ⟨rfl, rfl, rfl, rfl, rfl⟩

/-- C4 (amended): `hasWithdrawn` is set by `withdrawBonus` before the
decryption request is opened (it already holds in the state in force at
`FHE.requestDecryption`, where a reentrant withdrawal reverts), it is
never reset by any operation, and while it is true both a further
withdrawal and a further commitment revert; `hasCommitted` is set exactly
once and never unset; and `settledBonus` is written only while
`hasWithdrawn` is already true — by the settlement callback, after the
flag became true at request time, not simultaneously with it. -/
theorem c4_amended :
    (∀ s : PoolState, ∀ a : Address, ∀ s1 : PoolState, ∀ b : Nat,
      withdrawBonusFlag s a = .ok (s1, b) →
        (s1.employees a).hasWithdrawn = true ∧
        withdrawBonus s1 a = .error "Already withdrawn") ∧
    (∀ s : PoolState, ∀ a : Address, ∀ s' : PoolState, ∀ rid : Nat,
      withdrawBonus s a = .ok (s', rid) →
        (s'.employees a).hasWithdrawn = true) ∧
    (∀ s : PoolState, ∀ a : Address, (s.employees a).hasWithdrawn = true →
      isOkE (withdrawBonus s a) = false ∧
      ∀ sc : Nat, ∀ r : Role, isOkE (commitPerformance s a sc r) = false) ∧
    ((∀ s : PoolState, ∀ sender : Address, ∀ v enc : Nat, ∀ s' : PoolState,
        ∀ rid : Nat, fundPool s sender v enc = .ok (s', rid) →
          s'.employees = s.employees) ∧
      (∀ s : PoolState, ∀ id d : Nat, ∀ s' : PoolState,
        callbackVerifyPool s id d = .ok s' → s'.employees = s.employees) ∧
      (∀ s : PoolState, ∀ sender : Address, ∀ s' : PoolState, ∀ rid : Nat,
        withdrawRemaining s sender = .ok (s', rid) →
          s'.employees = s.employees) ∧
      (∀ s : PoolState, ∀ id d : Nat, ∀ s' : PoolState, ∀ tr : List Effect,
        callbackWithdrawRemaining s id d = .ok (s', tr) →
          s'.employees = s.employees)) ∧
    (∀ s : PoolState, ∀ sender : Address, ∀ sc : Nat, ∀ r : Role,
      ∀ s' : PoolState, ∀ a : Address, commitPerformance s sender sc r = .ok s' →
        ((s.employees a).hasWithdrawn = true →
          (s'.employees a).hasWithdrawn = true) ∧
        ((s.employees a).hasCommitted = true →
          (s'.employees a).hasCommitted = true)) ∧
    (∀ s : PoolState, ∀ sender : Address, ∀ s' : PoolState, ∀ rid : Nat,
      ∀ a : Address, withdrawBonus s sender = .ok (s', rid) →
        ((s.employees a).hasWithdrawn = true →
          (s'.employees a).hasWithdrawn = true) ∧
        ((s.employees a).hasCommitted = true →
          (s'.employees a).hasCommitted = true)) ∧
    (∀ s : PoolState, ∀ id d : Nat, ∀ s' : PoolState, ∀ tr : List Effect,
      ∀ a : Address, callbackPayBonus s id d = .ok (s', tr) →
        (s'.employees a).hasWithdrawn = (s.employees a).hasWithdrawn ∧
        (s'.employees a).hasCommitted = (s.employees a).hasCommitted) ∧
    (∀ s : PoolState, ∀ sender : Address, ∀ sc : Nat, ∀ r : Role,
      ∀ s' : PoolState, commitPerformance s sender sc r = .ok s' →
        (s.employees sender).hasCommitted = false ∧
        (s'.employees sender).hasCommitted = true) ∧
    (∀ s : PoolState, ∀ a : Address, (s.employees a).hasCommitted = true →
      ∀ sc : Nat, ∀ r : Role, isOkE (commitPerformance s a sc r) = false) ∧
    (∀ s : PoolState, ∀ id d : Nat, ∀ s' : PoolState, ∀ tr : List Effect,
      ∀ a : Address, Reach s → callbackPayBonus s id d = .ok (s', tr) →
        (s'.employees a).decryptedBonus ≠ (s.employees a).decryptedBonus →
        (s.employees a).hasWithdrawn = true ∧
        (s'.employees a).hasWithdrawn = true) ∧
    (∀ s : PoolState, ∀ sender : Address, ∀ sc : Nat, ∀ r : Role,
      ∀ s' : PoolState, ∀ a : Address, Reach s →
        commitPerformance s sender sc r = .ok s' →
        (s'.employees a).decryptedBonus = (s.employees a).decryptedBonus) ∧
    (∀ s : PoolState, ∀ sender : Address, ∀ s' : PoolState, ∀ rid : Nat,
      ∀ a : Address, withdrawBonus s sender = .ok (s', rid) →
        (s'.employees a).decryptedBonus = (s.employees a).decryptedBonus) := by
  refine ⟨?_, ?_, ?_, ⟨?_, ?_, ?_, ?_⟩, ?_, ?_, ?_, ?_, ?_, ?_, ?_, ?_⟩
  · intro s a s1 b h
    obtain ⟨hc, hw, -, -, -, -, -, -, hemp1, -, -, -, -, -, -, -⟩ :=
      withdrawBonusFlag_ok h
    have hflag : (s1.employees a).hasWithdrawn = true := by
      rw [hemp1]
      simp [upd]
    have hcom : (s1.employees a).hasCommitted = true := by
      rw [hemp1]
      simpa [upd] using hc
    refine ⟨hflag, ?_⟩
    unfold withdrawBonus withdrawBonusFlag
    simp [hcom, hflag]
  · intro s a s' rid h
    obtain ⟨s1, b, hflag, -, -, -, -, -, -, hemp, -, -, -, -, -, -, -⟩ :=
      withdrawBonus_ok h
    obtain ⟨-, -, -, -, -, -, -, -, hemp1, -, -, -, -, -, -, -⟩ :=
      withdrawBonusFlag_ok hflag
    rw [hemp, hemp1]
    simp [upd]
  · intro s a h
    constructor
    · by_cases hcm : (s.employees a).hasCommitted
      · simp [withdrawBonus, withdrawBonusFlag, isOkE, hcm, h]
      · simp [withdrawBonus, withdrawBonusFlag, isOkE, hcm]
    · intro sc r
      by_cases h0 : r = Role.None
      · simp [commitPerformance, isOkE, h0]
      · simp [commitPerformance, isOkE, h0, h]
  · intro s sender v enc s' rid h
    exact (fundPool_ok h).2.2.2.2.2.2.2.2.1
  · intro s id d s' h
    exact (callbackVerifyPool_ok h).2.2.2.2.2.2.2.2.1
  · intro s sender s' rid h
    exact (withdrawRemaining_ok h).2.2.2.2.2.2.2.2.1
  · intro s id d s' tr h
    exact (callbackWithdrawRemaining_ok h).2.2.2.2.2.2.2.2.2.2.2.1
  · intro s sender sc r s' a h
    obtain ⟨-, hw, -, -, -, -, -, -, -, hemp, -, -, -, -, -, -, -⟩ :=
      commitPerformance_ok h
    by_cases hc : a = sender
    · subst hc
      constructor
      · intro hf
        exact absurd hf (by simp [hw])
      · intro hcm
        rw [hemp]
        simp [upd]
    · constructor
      · intro hf
        rw [hemp]
        simpa [upd, hc] using hf
      · intro hcm
        rw [hemp]
        simpa [upd, hc] using hcm
  · intro s sender s' rid a h
    obtain ⟨s1, b, hflag, -, -, -, -, -, -, hemp, -, -, -, -, -, -, -⟩ :=
      withdrawBonus_ok h
    obtain ⟨-, -, -, -, -, -, -, -, hemp1, -, -, -, -, -, -, -⟩ :=
      withdrawBonusFlag_ok hflag
    by_cases hc : a = sender
    · subst hc
      constructor
      · intro hf
        rw [hemp, hemp1]
        simp [upd]
      · intro hcm
        rw [hemp, hemp1]
        simpa [upd] using hcm
    · constructor
      · intro hf
        rw [hemp, hemp1]
        simpa [upd, hc] using hf
      · intro hcm
        rw [hemp, hemp1]
        simpa [upd, hc] using hcm
  · intro s id d s' tr a h
    obtain ⟨m, e, b, hEnter, -, -, -, -, -, -, hemp, -, -, -, -, -, -, -⟩ :=
      callbackPayBonus_ok h
    obtain ⟨-, -, -, -, -, -, -, -, -, -, -, -, hempm, -, -, -, -, -, -, -⟩ :=
      callbackPayBonusEnter_ok hEnter
    rw [hemp, hempm]
    by_cases hc : a = e
    · subst hc
      simp [upd]
    · simp [upd, hc]
  · intro s sender sc r s' h
    obtain ⟨-, -, -, hcm, -, -, -, -, -, hemp, -, -, -, -, -, -, -⟩ :=
      commitPerformance_ok h
    refine ⟨hcm, ?_⟩
    rw [hemp]
    simp [upd]
  · intro s a h sc r
    by_cases h0 : r = Role.None
    · simp [commitPerformance, isOkE, h0]
    · by_cases h1 : (s.employees a).hasWithdrawn
      · simp [commitPerformance, isOkE, h0, h1]
      · by_cases h2 : s.encPoolInit
        · simp [commitPerformance, isOkE, h0, h1, h2, h]
        · simp [commitPerformance, isOkE, h0, h1, h2]
  · intro s id d s' tr a hre h hchange
    obtain ⟨hinvreq, -⟩ := reach_inv hre
    obtain ⟨m, e, b, hEnter, -, -, -, -, -, -, hemp, -, -, -, -, -, -, -⟩ :=
      callbackPayBonus_ok h
    obtain ⟨-, -, hne, -, -, he', -, -, -, -, -, -, hempm, -, -, -, -, -, -, -⟩ :=
      callbackPayBonusEnter_ok hEnter
    have hflagE : (s.employees (s.requestToEmployee id)).hasWithdrawn = true :=
      hinvreq id hne
    by_cases hc : a = e
    · subst hc
      constructor
      · rw [he']
        exact hflagE
      · rw [hemp, hempm]
        simp only [upd, if_pos rfl]
        rw [he']
        exact hflagE
    · exfalso
      apply hchange
      rw [hemp, hempm]
      simp [upd, hc]
  · intro s sender sc r s' a hre h
    obtain ⟨-, hset⟩ := reach_inv hre
    obtain ⟨-, hw, -, -, -, -, -, -, -, hemp, -, -, -, -, -, -, -⟩ :=
      commitPerformance_ok h
    by_cases hc : a = sender
    · subst hc
      rw [hemp]
      simp only [upd, if_pos rfl]
      by_cases hz : (s.employees a).decryptedBonus = 0
      · exact hz.symm
      · exact absurd (hset a hz) (by simp [hw])
    · rw [hemp]
      simp [upd, hc]
  · intro s sender s' rid a h
    obtain ⟨s1, b, hflag, -, -, -, -, -, -, hemp, -, -, -, -, -, -, -⟩ :=
      withdrawBonus_ok h
    obtain ⟨-, -, -, -, -, -, -, -, hemp1, -, -, -, -, -, -, -⟩ :=
      withdrawBonusFlag_ok hflag
    rw [hemp, hemp1]
    by_cases hc : a = sender
    · subst hc
      simp [upd]
    · simp [upd, hc]

/-- Witness for C4: the scenario run — the flag set by `withdrawBonus`,
further withdrawal and commitment rejected, and the settlement writing
the bonus while the flag was already true. -/
theorem c4_amended_witness :
    (sWithdrawn.employees 2).hasWithdrawn = true ∧
    isOkE (withdrawBonus sWithdrawn 2) = false ∧
    isOkE (commitPerformance sWithdrawn 2 50 Role.Mid) = false ∧
    (sPaid.employees 2).hasWithdrawn = true := by
  have hreach : Reach sWithdrawn :=
    Reach.withdraw 2 2 (Reach.commit 2 80 Role.Mid (Reach.verify 1 1000000
      (Reach.fund 1 1000000 1000000 1 (Reach.init 1) rfl) rfl) rfl) rfl
  have h2 := c4_amended.2.1 sCommitted 2 sWithdrawn 2 rfl
  have h3 := c4_amended.2.2.1 sWithdrawn 2 h2
  have h10 := c4_amended.2.2.2.2.2.2.2.2.2.1 sWithdrawn 2 64000 sPaid
    [Effect.subEncrypted 64000, Effect.subClear 64000, Effect.ethTransfer 2 64000,
     Effect.recordBonus 2 64000, Effect.closeRequest 2] 2 hreach rfl (by decide)
  exact ⟨h2, h3.1, h3.2 50 Role.Mid, h10.2⟩
